import Mathlib

/-!
Shallow embedding of the my-fuse in-memory filesystem (src/src/lib.rs).

The Rust data model:
  * `MyFileSystem.nodes : Vec<Option<Arc<RwLock<Node>>>>` — slot `i-1` holds inode `i`;
  * `MyFileSystem.reusable_inode_queue : LinkedList<Inode>` — freed inodes,
    `push_back` on free and `pop_back` on allocation;
  * `Node { inode, inner }` with `InnerNode = File { data: Vec<u8> } | Folder { entries: BTreeMap<String, Inode> }`.

Here bytes are `Nat`, a file's `Vec<u8>` is `List Nat`, and a folder's
`BTreeMap<String, Inode>` is an association list ordered by key, with the
BTreeMap operations translated as `entriesGet` / `entriesInsert` (replacing an
existing binding) / `entriesRemove` (returning the removed value).

Locking is sequentialized: each dispatcher operation is a function
`FS → args → Except FsError α × FS`; the second component is the state the
operation leaves behind (unchanged on the error paths, which in the source
return before mutating anything).  A Rust mutation through a held
`Arc<RwLock<Node>>` is written back with `setSlot`; a raw vector indexing
`nodes[ino - 1]` is translated with an explicit bounds check whose failure is
the error `FsError.panic`, standing for the Rust index-out-of-bounds /
arithmetic-underflow panic (`inode as usize - 1` with `inode = 0`).
-/

deriving instance DecidableEq for Except

namespace MyFuse

/-- Error kinds of the dispatcher; `panic` stands for a Rust panic
(unchecked vector indexing), not for a returned `io::Error`. -/
inductive FsError where
  | notFound
  | notADirectory
  | isADirectory
  | alreadyExists
  | notEmpty
  | invalidInput
  | panic
deriving DecidableEq, Repr

/-- The `InnerNode` enum: a file owns its byte buffer, a folder owns its
name-to-inode map (`BTreeMap<String, Inode>`, modelled as an ordered
association list). -/
inductive InnerNode where
  | file (data : List Nat)
  | folder (entries : List (String × Nat))
deriving DecidableEq, Repr

/-- The `Node` struct: every node carries its own inode. -/
structure Node where
  inode : Nat
  inner : InnerNode
deriving DecidableEq, Repr

/-- The `MyFileSystem` state: the slot vector and the free-inode queue.
(The declared-but-never-populated `path_index` is omitted.) -/
structure FS where
  nodes : List (Option Node)
  queue : List Nat
deriving DecidableEq, Repr

/-- `BTreeMap::get` on the entries map: the value bound to `name`. -/
def entriesGet : List (String × Nat) → String → Option Nat
  | [], _ => none
  | (k, v) :: rest, name => if k = name then some v else entriesGet rest name

/-- Lexicographic order on lists of character codes. -/
def codesLt : List Nat → List Nat → Bool
  | [], [] => false
  | [], _ :: _ => true
  | _ :: _, [] => false
  | a :: as, b :: bs => if a < b then true else if b < a then false else codesLt as bs

/-- The `Ord` used by `BTreeMap<String, _>`: Rust compares strings by their
UTF-8 bytes, which orders them exactly as their Unicode scalar values. -/
def strLt (a b : String) : Bool := codesLt (a.data.map Char.toNat) (b.data.map Char.toNat)

/-- `BTreeMap::insert` on the entries map: replaces an existing binding,
otherwise inserts at the ordered position. -/
def entriesInsert : List (String × Nat) → String → Nat → List (String × Nat)
  | [], name, ino => [(name, ino)]
  | (k, v) :: rest, name, ino =>
    if strLt name k then (name, ino) :: (k, v) :: rest
    else if name = k then (name, ino) :: rest
    else (k, v) :: entriesInsert rest name ino

/-- `BTreeMap::remove` on the entries map: the removed binding (if any)
together with the remaining map. -/
def entriesRemove : List (String × Nat) → String → Option Nat × List (String × Nat)
  | [], _ => (none, [])
  | (k, v) :: rest, name =>
    if k = name then (some v, rest)
    else
      let r := entriesRemove rest name
      (r.1, (k, v) :: r.2)

/-- Reading slot `i` of the slot vector (callers have already checked the bound). -/
def slotGet : List (Option Node) → Nat → Option Node
  | [], _ => none
  | x :: _, 0 => x
  | _ :: rest, n + 1 => slotGet rest n

/-- Writing slot `i` of the slot vector (no-op out of range; every use below
is behind the caller's bounds check). -/
def setNth : List (Option Node) → Nat → Option Node → List (Option Node)
  | [], _, _ => []
  | _ :: rest, 0, x => x :: rest
  | y :: rest, n + 1, x => y :: setNth rest n x

/-- Write-back of a node mutated through its held `Arc<RwLock<Node>>`: the
slot `ino - 1` still holds the same node, now updated.  The source performs no
indexing here, so there is no panic path; the slot is in range because the
node was loaded from it. -/
def setSlot (fs : FS) (ino : Nat) (node : Node) : FS :=
  { fs with nodes := setNth fs.nodes (ino - 1) (some node) }

/-- A raw `self.nodes[ino - 1] = x` store: Rust panics when `ino = 0`
(underflow) or `ino - 1` is out of range. -/
def storeSlot (fs : FS) (ino : Nat) (x : Option Node) : Except FsError FS :=
  if 1 ≤ ino ∧ ino - 1 < fs.nodes.length then
    .ok { fs with nodes := setNth fs.nodes (ino - 1) x }
  else
    .error .panic

/-- `MyFileSystem::load`: reads `self.nodes[inode as usize - 1]`.  The Rust
indexing is unchecked, so `inode = 0` and `inode > nodes.len()` panic; an
in-range empty slot is `NotFound`. -/
def load (fs : FS) (ino : Nat) : Except FsError Node :=
  if 1 ≤ ino ∧ ino - 1 < fs.nodes.length then
    match slotGet fs.nodes (ino - 1) with
    | some node => .ok node
    | none => .error .notFound
  else
    .error .panic

/-- `MyFileSystem::next_inode`: pop the back of the reusable-inode queue if it
is non-empty, else push a fresh `None` slot and return the new 1-based length. -/
def next_inode (fs : FS) : Nat × FS :=
  match fs.queue.getLast? with
  | some ino => (ino, { fs with queue := fs.queue.dropLast })
  | none => (fs.nodes.length + 1, { fs with nodes := fs.nodes ++ [none] })

/-- `MAX_FILE_SIZE` (4 GiB).  Declared in the source; the dispatcher's `write`
clamps its splice range against it (ineffectively, see `C7`). -/
def MAX_FILE_SIZE : Nat := 4294967296

/-- The state `init` leaves behind: the root folder published at inode 1. -/
def initFS : FS := ⟨[some ⟨1, .folder []⟩], []⟩

/-- `lookup(parent, name)`: read the parent folder, resolve `name`, load the
child and return its entry (modelled by the child's inode).  A file parent is
reported as `NotFound` by the source. -/
def lookup (fs : FS) (parent : Nat) (name : String) : Except FsError Nat × FS :=
  match load fs parent with
  | .error e => (.error e, fs)
  | .ok pnode =>
    match pnode.inner with
    | .file _ => (.error .notFound, fs)
    | .folder folder =>
      match entriesGet folder name with
      | none => (.error .notFound, fs)
      | some ino =>
        match load fs ino with
        | .error e => (.error e, fs)
        | .ok child => (.ok child.inode, fs)

/-- `getattr(inode)`: derived attributes; the size field is the file length or
the folder's entry count. -/
def getattr (fs : FS) (ino : Nat) : Except FsError Nat × FS :=
  match load fs ino with
  | .error e => (.error e, fs)
  | .ok node =>
    match node.inner with
    | .file data => (.ok data.length, fs)
    | .folder folder => (.ok folder.length, fs)

/-- `Vec::resize(target, 0)`: truncate on shrink, zero-fill on growth. -/
def listResize (l : List Nat) (n : Nat) : List Nat :=
  if n ≤ l.length then l.take n else l ++ List.replicate (n - l.length) 0

/-- `setattr(inode, attr)`: for a file, resize the byte buffer to
`attr.st_size` (no clamp against `MAX_FILE_SIZE`); folders are untouched.
Returns the derived size. -/
def setattr (fs : FS) (ino : Nat) (size : Nat) : Except FsError Nat × FS :=
  match load fs ino with
  | .error e => (.error e, fs)
  | .ok node =>
    match node.inner with
    | .folder folder => (.ok folder.length, fs)
    | .file data =>
      let d := listResize data size
      (.ok d.length, setSlot fs ino ⟨node.inode, .file d⟩)

/-- `mkdir(parent, name)`: no duplicate-name check — allocate, store the new
folder's slot (raw indexing), then insert the entry into the held parent,
replacing any existing binding of `name`. -/
def mkdir (fs : FS) (parent : Nat) (name : String) : Except FsError Nat × FS :=
  match load fs parent with
  | .error e => (.error e, fs)
  | .ok pnode =>
    match pnode.inner with
    | .file _ => (.error .notADirectory, fs)
    | .folder folder =>
      let r := next_inode fs
      match storeSlot r.2 r.1 (some ⟨r.1, .folder []⟩) with
      | .error e => (.error e, r.2)
      | .ok fs2 =>
        (.ok r.1, setSlot fs2 parent ⟨pnode.inode, .folder (entriesInsert folder name r.1)⟩)

/-- `mknod(parent, name)`: no duplicate-name check — allocate, insert the
entry into the held parent first, then store the new empty file's slot
(raw indexing). -/
def mknod (fs : FS) (parent : Nat) (name : String) : Except FsError Nat × FS :=
  match load fs parent with
  | .error e => (.error e, fs)
  | .ok pnode =>
    match pnode.inner with
    | .file _ => (.error .notADirectory, fs)
    | .folder folder =>
      let r := next_inode fs
      let fs1 := setSlot r.2 parent ⟨pnode.inode, .folder (entriesInsert folder name r.1)⟩
      match storeSlot fs1 r.1 (some ⟨r.1, .file []⟩) with
      | .error e => (.error e, fs1)
      | .ok fs2 => (.ok r.1, fs2)

/-- `rmdir(parent, name)`: remove the entry from the held parent, clear the
child's slot (raw indexing) and push its inode onto the free queue.  The
source never loads the child: no directory check, no emptiness check. -/
def rmdir (fs : FS) (parent : Nat) (name : String) : Except FsError Unit × FS :=
  match load fs parent with
  | .error e => (.error e, fs)
  | .ok pnode =>
    match pnode.inner with
    | .file _ => (.error .notADirectory, fs)
    | .folder folder =>
      match entriesRemove folder name with
      | (none, _) => (.error .notFound, fs)
      | (some ino, rest) =>
        match storeSlot (setSlot fs parent ⟨pnode.inode, .folder rest⟩) ino none with
        | .error e => (.error e, setSlot fs parent ⟨pnode.inode, .folder rest⟩)
        | .ok fs2 => (.ok (), { fs2 with queue := fs2.queue ++ [ino] })

/-- `unlink(parent, name)`: textually the same body as `rmdir` in the source —
in particular the child's type is never inspected (no `IsADirectory` check). -/
def unlink (fs : FS) (parent : Nat) (name : String) : Except FsError Unit × FS :=
  match load fs parent with
  | .error e => (.error e, fs)
  | .ok pnode =>
    match pnode.inner with
    | .file _ => (.error .notADirectory, fs)
    | .folder folder =>
      match entriesRemove folder name with
      | (none, _) => (.error .notFound, fs)
      | (some ino, rest) =>
        match storeSlot (setSlot fs parent ⟨pnode.inode, .folder rest⟩) ino none with
        | .error e => (.error e, setSlot fs parent ⟨pnode.inode, .folder rest⟩)
        | .ok fs2 => (.ok (), { fs2 with queue := fs2.queue ++ [ino] })

/-- `rename(olddir, oldname, newdir, newname)`: move the binding, keeping the
inode.  The source performs no descendant check and no replacement-target
check; `newname` simply overwrites in the target map. -/
def rename (fs : FS) (olddir : Nat) (oldname : String) (newdir : Nat) (newname : String) :
    Except FsError Unit × FS :=
  match load fs olddir with
  | .error e => (.error e, fs)
  | .ok oldnode =>
    if olddir = newdir then
      match oldnode.inner with
      | .file _ => (.error .notADirectory, fs)
      | .folder folder =>
        match entriesRemove folder oldname with
        | (none, _) => (.error .notFound, fs)
        | (some ino, rest) =>
          (.ok (), setSlot fs olddir ⟨oldnode.inode, .folder (entriesInsert rest newname ino)⟩)
    else
      match load fs newdir with
      | .error e => (.error e, fs)
      | .ok newnode =>
        match oldnode.inner, newnode.inner with
        | .folder oldF, .folder newF =>
          match entriesRemove oldF oldname with
          | (none, _) => (.error .notFound, fs)
          | (some ino, oldRest) =>
            (.ok (),
              setSlot (setSlot fs olddir ⟨oldnode.inode, .folder oldRest⟩) newdir
                ⟨newnode.inode, .folder (entriesInsert newF newname ino)⟩)
        | _, _ => (.error .notADirectory, fs)

/-- `open(inode)`: stateless — just validates that the inode loads. -/
def openNode (fs : FS) (ino : Nat) : Except FsError Unit × FS :=
  match load fs ino with
  | .error e => (.error e, fs)
  | .ok _ => (.ok (), fs)

/-- The body of `readdir`'s emission loop: each entry is resolved through
`load` to read its type. -/
def readdirChildren (fs : FS) : List (String × Nat) → Except FsError (List (Nat × String × Bool))
  | [] => .ok []
  | (name, ino) :: rest =>
    match load fs ino with
    | .error e => .error e
    | .ok child =>
      let isDir := match child.inner with
        | .folder _ => true
        | .file _ => false
      match readdirChildren fs rest with
      | .error e => .error e
      | .ok l => .ok ((ino, name, isDir) :: l)

/-- `readdir(inode, size, offset)`: skip `offset` entries, take `size`, emit
`(ino, name, is_dir)` triples in map order. -/
def readdir (fs : FS) (ino : Nat) (size : Nat) (offset : Nat) :
    Except FsError (List (Nat × String × Bool)) × FS :=
  match load fs ino with
  | .error e => (.error e, fs)
  | .ok node =>
    match node.inner with
    | .folder folder => (readdirChildren fs ((folder.drop offset).take size), fs)
    | .file _ => (.error .notFound, fs)

/-- `read(inode, size, offset)`: clamp `[offset, offset + size)` to the file
length and return that slice of the bytes. -/
def read (fs : FS) (ino : Nat) (size : Nat) (offset : Nat) :
    Except FsError (List Nat) × FS :=
  match load fs ino with
  | .error e => (.error e, fs)
  | .ok node =>
    match node.inner with
    | .folder _ => (.error .notFound, fs)
    | .file data =>
      let s := if data.length ≤ offset then data.length else offset
      let e := if data.length ≤ offset + size then data.length else offset + size
      (.ok ((data.drop s).take (e - s)), fs)

/-- `Vec::splice(s..e, buf)`: replace the range by the whole buffer. -/
def splice (data : List Nat) (s e : Nat) (buf : List Nat) : List Nat :=
  data.take s ++ buf ++ data.drop e

/-- `write(inode, buf, size, offset)`: reject a buffer whose length differs
from `size`; clamp the splice range first to the current length, then to
`MAX_FILE_SIZE`; splice the whole buffer in and return its length.  Note the
clamp limits only the removed range, never the inserted bytes. -/
def write (fs : FS) (ino : Nat) (buf : List Nat) (size : Nat) (offset : Nat) :
    Except FsError Nat × FS :=
  match load fs ino with
  | .error e => (.error e, fs)
  | .ok node =>
    match node.inner with
    | .folder _ => (.error .notFound, fs)
    | .file data =>
      if buf.length ≠ size then (.error .invalidInput, fs)
      else
        let s1 := if data.length ≤ offset then data.length else offset
        let e1 := if data.length ≤ offset + buf.length then data.length else offset + buf.length
        let s2 := if MAX_FILE_SIZE ≤ s1 then MAX_FILE_SIZE else s1
        let e2 := if MAX_FILE_SIZE ≤ e1 then MAX_FILE_SIZE else e1
        (.ok buf.length, setSlot fs ino ⟨node.inode, .file (splice data s2 e2 buf)⟩)

/-- `flush`: a no-op returning success. -/
def flush (fs : FS) (ino : Nat) : Except FsError Unit × FS :=
  let _ := ino
  (.ok (), fs)

/-- `release`: a no-op returning success. -/
def release (fs : FS) (ino : Nat) : Except FsError Unit × FS :=
  let _ := ino
  (.ok (), fs)

/-- `releasedir`: a no-op returning success. -/
def releasedir (fs : FS) (ino : Nat) : Except FsError Unit × FS :=
  let _ := ino
  (.ok (), fs)

/-- The inode `name` resolves to inside the folder `parent`, if any. -/
def parentEntry (fs : FS) (parent : Nat) (name : String) : Option Nat :=
  match load fs parent with
  | .error _ => none
  | .ok node =>
    match node.inner with
    | .file _ => none
    | .folder folder => entriesGet folder name

/-- The byte content of the file at `ino`, if `ino` loads as a file. -/
def fileData (fs : FS) (ino : Nat) : Option (List Nat) :=
  match load fs ino with
  | .error _ => none
  | .ok node =>
    match node.inner with
    | .file data => some data
    | .folder _ => none

/-- The length of the file at `ino`, if `ino` loads as a file. -/
def fileLen (fs : FS) (ino : Nat) : Option Nat :=
  (fileData fs ino).map List.length

/-! ### Lemmas about the entries map -/

theorem codesLt_irrefl (l : List Nat) : codesLt l l = false := by
  induction l with
  | nil => rfl
  | cons a as ih => simp [codesLt, ih]

theorem strLt_irrefl (a : String) : strLt a a = false := codesLt_irrefl _

theorem entriesRemove_fst (l : List (String × Nat)) (name : String) :
    (entriesRemove l name).1 = entriesGet l name := by
  induction l with
  | nil => rfl
  | cons kv rest ih =>
    obtain ⟨k, v⟩ := kv
    by_cases h : k = name
    · simp [entriesRemove, entriesGet, h]
    · simp [entriesRemove, entriesGet, h, ih]

theorem entriesGet_insert_self (l : List (String × Nat)) (name : String) (ino : Nat) :
    entriesGet (entriesInsert l name ino) name = some ino := by
  induction l with
  | nil => simp [entriesInsert, entriesGet]
  | cons kv rest ih =>
    obtain ⟨k, v⟩ := kv
    by_cases hlt : strLt name k
    · simp [entriesInsert, hlt, entriesGet]
    · by_cases heq : name = k
      · subst heq
        simp [entriesInsert, strLt_irrefl, entriesGet]
      · simp [entriesInsert, hlt, heq, entriesGet, Ne.symm heq, ih]

theorem entriesGet_insert_ne (l : List (String × Nat)) (name m : String) (ino : Nat)
    (h : m ≠ name) :
    entriesGet (entriesInsert l name ino) m = entriesGet l m := by
  induction l with
  | nil => simp [entriesInsert, entriesGet, Ne.symm h]
  | cons kv rest ih =>
    obtain ⟨k, v⟩ := kv
    by_cases hlt : strLt name k
    · simp [entriesInsert, hlt, entriesGet, Ne.symm h]
    · by_cases heq : name = k
      · subst heq
        simp [entriesInsert, hlt, entriesGet, Ne.symm h]
      · simp [entriesInsert, hlt, heq, entriesGet, ih]

theorem entriesGet_eq_none_of_not_mem (l : List (String × Nat)) (name : String)
    (h : name ∉ l.map Prod.fst) :
    entriesGet l name = none := by
  induction l with
  | nil => rfl
  | cons kv rest ih =>
    obtain ⟨k, v⟩ := kv
    simp only [List.map_cons, List.mem_cons] at h
    push_neg at h
    simp [entriesGet, Ne.symm h.1, ih h.2]

theorem entriesGet_remove_self (l : List (String × Nat)) (name : String)
    (h : (l.map Prod.fst).Nodup) :
    entriesGet (entriesRemove l name).2 name = none := by
  induction l with
  | nil => rfl
  | cons kv rest ih =>
    obtain ⟨k, v⟩ := kv
    simp only [List.map_cons, List.nodup_cons] at h
    by_cases hk : k = name
    · subst hk
      simpa [entriesRemove] using entriesGet_eq_none_of_not_mem rest k h.1
    · simp [entriesRemove, hk, entriesGet, ih h.2]

/-! ### Lemmas about the slot vector -/

theorem length_setNth (l : List (Option Node)) (n : Nat) (x : Option Node) :
    (setNth l n x).length = l.length := by
  induction l generalizing n with
  | nil => rfl
  | cons y rest ih =>
    cases n with
    | zero => rfl
    | succ m => simp [setNth, ih]

theorem slotGet_setNth_self (l : List (Option Node)) (n : Nat) (x : Option Node)
    (h : n < l.length) :
    slotGet (setNth l n x) n = x := by
  induction l generalizing n with
  | nil => simp at h
  | cons y rest ih =>
    cases n with
    | zero => rfl
    | succ m => exact ih m (by simpa using h)

theorem slotGet_setNth_ne (l : List (Option Node)) (n m : Nat) (x : Option Node)
    (h : m ≠ n) :
    slotGet (setNth l n x) m = slotGet l m := by
  induction l generalizing n m with
  | nil => rfl
  | cons y rest ih =>
    cases n with
    | zero =>
      cases m with
      | zero => exact absurd rfl h
      | succ j => rfl
    | succ i =>
      cases m with
      | zero => rfl
      | succ j => exact ih i j (by omega)

/-! ### Lemmas about load, setSlot and storeSlot -/

theorem load_ok_bounds (fs : FS) (ino : Nat) (node : Node)
    (h : load fs ino = .ok node) :
    1 ≤ ino ∧ ino - 1 < fs.nodes.length := by
  by_cases hc : 1 ≤ ino ∧ ino - 1 < fs.nodes.length
  · exact hc
  · rw [load, if_neg hc] at h
    cases h

theorem load_setSlot_self (fs : FS) (ino : Nat) (node old : Node)
    (h : load fs ino = .ok old) :
    load (setSlot fs ino node) ino = .ok node := by
  obtain ⟨h1, h2⟩ := load_ok_bounds fs ino old h
  unfold load setSlot
  simp only [length_setNth]
  rw [if_pos ⟨h1, h2⟩, slotGet_setNth_self _ _ _ h2]

theorem load_setSlot_ne (fs : FS) (ino j : Nat) (node : Node)
    (hne : ino ≠ j) (hj : 1 ≤ j) :
    load (setSlot fs j node) ino = load fs ino := by
  unfold load setSlot
  simp only [length_setNth]
  by_cases hc : 1 ≤ ino ∧ ino - 1 < fs.nodes.length
  · have h12 : ino - 1 ≠ j - 1 := by omega
    rw [if_pos hc, if_pos hc, slotGet_setNth_ne _ _ _ _ h12]
  · rw [if_neg hc, if_neg hc]

theorem storeSlot_ok_queue (fs fs2 : FS) (ino : Nat) (x : Option Node)
    (h : storeSlot fs ino x = .ok fs2) :
    fs2.queue = fs.queue := by
  unfold storeSlot at h
  split at h
  · cases h
    rfl
  · cases h

/-! ### Reduction lemmas for the derived observers -/

theorem parentEntry_folder (fs : FS) (p : Nat) (pnode : Node)
    (folder : List (String × Nat)) (name : String)
    (hl : load fs p = .ok pnode) (hf : pnode.inner = .folder folder) :
    parentEntry fs p name = entriesGet folder name := by
  obtain ⟨pni, pinner⟩ := pnode
  cases hf
  unfold parentEntry
  rw [hl]

theorem fileData_of_folder (fs : FS) (p : Nat) (pnode : Node)
    (folder : List (String × Nat))
    (hl : load fs p = .ok pnode) (hf : pnode.inner = .folder folder) :
    fileData fs p = none := by
  obtain ⟨pni, pinner⟩ := pnode
  cases hf
  unfold fileData
  rw [hl]

theorem fileData_eq_of_load_eq (fs1 fs2 : FS) (ino : Nat)
    (h : load fs1 ino = load fs2 ino) :
    fileData fs1 ino = fileData fs2 ino := by
  unfold fileData
  rw [h]

/-! ### Inversion lemmas for the freeing operations -/

theorem next_inode_of_queue_concat (fs : FS) (q : List Nat) (i : Nat)
    (h : fs.queue = q ++ [i]) :
    next_inode fs = (i, { fs with queue := q }) := by
  unfold next_inode
  rw [h, List.getLast?_concat, List.dropLast_concat]

theorem unlink_ok_inv (fs fs' : FS) (p : Nat) (name : String)
    (h : unlink fs p name = (.ok (), fs')) :
    ∃ pnode folder ino rest,
      load fs p = .ok pnode ∧ pnode.inner = .folder folder ∧
      entriesRemove folder name = (some ino, rest) ∧
      entriesGet folder name = some ino ∧
      fs'.queue = fs.queue ++ [ino] := by
  unfold unlink at h
  split at h
  · cases h
  next pnode heq =>
    split at h
    · cases h
    next folder hinner =>
      split at h
      · cases h
      next ino rest hrem =>
        split at h
        · cases h
        next fs2 hstore =>
          injection h with h1 h2
          refine ⟨pnode, folder, ino, rest, heq, hinner, hrem, ?_, ?_⟩
          · rw [← entriesRemove_fst, hrem]
          · rw [← h2]
            simp [storeSlot_ok_queue _ _ _ _ hstore, setSlot]

theorem rmdir_ok_inv (fs fs' : FS) (p : Nat) (name : String)
    (h : rmdir fs p name = (.ok (), fs')) :
    ∃ pnode folder ino rest,
      load fs p = .ok pnode ∧ pnode.inner = .folder folder ∧
      entriesRemove folder name = (some ino, rest) ∧
      entriesGet folder name = some ino ∧
      fs'.queue = fs.queue ++ [ino] := by
  unfold rmdir at h
  split at h
  · cases h
  next pnode heq =>
    split at h
    · cases h
    next folder hinner =>
      split at h
      · cases h
      next ino rest hrem =>
        split at h
        · cases h
        next fs2 hstore =>
          injection h with h1 h2
          refine ⟨pnode, folder, ino, rest, heq, hinner, hrem, ?_, ?_⟩
          · rw [← entriesRemove_fst, hrem]
          · rw [← h2]
            simp [storeSlot_ok_queue _ _ _ _ hstore, setSlot]

/-! ### Concrete states used by the claim theorems -/

/-- Root directory holding directory `d` (inode 2) which in turn holds a
file `x` (inode 3) — so `d` is a non-empty directory. -/
def fsC : FS := ⟨[some ⟨1, .folder [("d", 2)]⟩, some ⟨2, .folder [("x", 3)]⟩, some ⟨3, .file []⟩], []⟩

/-- Root directory holding an empty file `f` at inode 2. -/
def fsE : FS := ⟨[some ⟨1, .folder [("f", 2)]⟩, some ⟨2, .file []⟩], []⟩

/-- Root holding directory `a` (inode 2) whose child `b` (inode 3) is a
directory: inode 3 is a proper descendant of inode 2. -/
def fsG : FS := ⟨[some ⟨1, .folder [("a", 2)]⟩, some ⟨2, .folder [("b", 3)]⟩, some ⟨3, .folder []⟩], []⟩

/-- Root holding two files `a` (inode 2) and `b` (inode 3). -/
def fsI : FS := ⟨[some ⟨1, .folder [("a", 2), ("b", 3)]⟩, some ⟨2, .file []⟩, some ⟨3, .file []⟩], []⟩

/-- The state after `unlink fsI 1 "a"`: inode 2 freed, queue `[2]`. -/
def fsJ : FS := ⟨[some ⟨1, .folder [("b", 3)]⟩, none, some ⟨3, .file []⟩], [2]⟩

/-- Root holding a file `a` at inode 2 with content `[5]`. -/
def fsL : FS := ⟨[some ⟨1, .folder [("a", 2)]⟩, some ⟨2, .file [5]⟩], []⟩

/-! ### Claim theorems -/

/-- Claim C1 (code: mkdir, mknod): the source performs no duplicate-name
check.  With `"a"` already present in the root, a second `mkdir` (and a
`mknod`) of `"a"` succeeds with a freshly allocated inode 3 — it does not
fail with `AlreadyExists` — silently replacing the binding and orphaning
inode 2. -/
theorem C1_mkdir_mknod_accept_duplicate_name :
    (mkdir initFS 1 "a").1 = .ok 2 ∧
    (mkdir (mkdir initFS 1 "a").2 1 "a").1 = .ok 3 ∧
    (mkdir (mkdir initFS 1 "a").2 1 "a").1 ≠ .error .alreadyExists ∧
    (mknod (mkdir initFS 1 "a").2 1 "a").1 = .ok 3 ∧
    (mknod (mkdir initFS 1 "a").2 1 "a").1 ≠ .error .alreadyExists ∧
    parentEntry (mkdir (mkdir initFS 1 "a").2 1 "a").2 1 "a" = some 3 := by decide

/-- Claim C2 (code: rmdir): the source never loads the child, so `rmdir` of
the non-empty directory `d` succeeds instead of failing with `NotEmpty`; the
entry is removed, slot 2 cleared and inode 2 enqueued, orphaning the child
file at inode 3. -/
theorem C2_rmdir_accepts_nonempty_directory :
    (rmdir fsC 1 "d").1 = .ok () ∧
    (rmdir fsC 1 "d").1 ≠ .error .notEmpty ∧
    (rmdir fsC 1 "d").2 = ⟨[some ⟨1, .folder []⟩, none, some ⟨3, .file []⟩], [2]⟩ := by decide

/-- Claim C3 (code: write, read): writing `B = [7]` at offset `5` past the end
of an empty file does not zero-fill the gap — the clamp moves the splice range
to the end of the buffer, so the byte lands at position 0, and the subsequent
`read` (1 byte at offset 5) returns `[]`, not `B`. -/
theorem C3_write_does_not_zero_fill_gap :
    (write fsE 2 [7] 1 5).1 = .ok 1 ∧
    (write fsE 2 [7] 1 5).2 = ⟨[some ⟨1, .folder [("f", 2)]⟩, some ⟨2, .file [7]⟩], []⟩ ∧
    (read (write fsE 2 [7] 1 5).2 2 1 5).1 = .ok [] ∧
    (read (write fsE 2 [7] 1 5).2 2 1 5).1 ≠ .ok [7] := by decide

/-- Claim C4 (code: rename): the source does no descendant check.  Renaming
directory `a` (inode 2) into its own descendant `b` (inode 3, a child of `a`)
succeeds instead of failing with `InvalidInput`, detaching the subtree from
the root and creating a cycle between inodes 2 and 3. -/
theorem C4_rename_into_descendant_accepted :
    (rename fsG 1 "a" 3 "c").1 = .ok () ∧
    (rename fsG 1 "a" 3 "c").1 ≠ .error .invalidInput ∧
    (rename fsG 1 "a" 3 "c").2 =
      ⟨[some ⟨1, .folder []⟩, some ⟨2, .folder [("b", 3)]⟩, some ⟨3, .folder [("c", 2)]⟩], []⟩ := by
  decide

/-- Claim C5 (code: unlink): the source never inspects the child's type, so
`unlink` of the directory `d` succeeds instead of failing with `IsADirectory`,
removing the directory and recycling its inode. -/
theorem C5_unlink_removes_directory :
    (unlink fsC 1 "d").1 = .ok () ∧
    (unlink fsC 1 "d").1 ≠ .error .isADirectory ∧
    (unlink fsC 1 "d").2 = ⟨[some ⟨1, .folder []⟩, none, some ⟨3, .file []⟩], [2]⟩ := by decide

/-- Claim C8 (code: load): `load` indexes `nodes[ino - 1]` without a bounds
check.  On the freshly initialised state (one slot), `ino = 0` underflows and
`ino = 2` is out of range: both panic instead of returning `NotFound`. -/
theorem C8_load_panics_out_of_range :
    load initFS 0 = .error .panic ∧
    load initFS 2 = .error .panic ∧
    load initFS 0 ≠ .error .notFound ∧
    load initFS 2 ≠ .error .notFound ∧
    load initFS 1 = .ok ⟨1, .folder []⟩ := by decide

/-- Claim C6, counterexample: freed inodes are reused in LIFO order, not FIFO.
Unlinking `a` frees inode 2, then unlinking `b` frees inode 3; the next
allocation returns 3 (the most recently freed), not 2 (the first freed). -/
theorem C6_counterexample_reuse_is_not_fifo :
    (unlink fsI 1 "a").1 = .ok () ∧
    (unlink fsI 1 "a").2 = fsJ ∧
    (unlink (unlink fsI 1 "a").2 1 "b").1 = .ok () ∧
    (next_inode (unlink (unlink fsI 1 "a").2 1 "b").2).1 = 3 ∧
    (next_inode (unlink (unlink fsI 1 "a").2 1 "b").2).1 ≠ 2 := by decide

/-- Claim C9, counterexample: after the successful identity rename
`rename(root, "a", root, "a")`, the entry `oldname = "a"` is still present in
`olddir` — contradicting the claim that `oldname` is no longer present in
`olddir` after every successful rename. -/
theorem C9_counterexample_identity_rename :
    (rename fsL 1 "a" 1 "a").1 = .ok () ∧
    parentEntry (rename fsL 1 "a" 1 "a").2 1 "a" = some 2 := by decide

/-- Claim C6 (amended): allocation pops the back of the free queue when it is
non-empty and otherwise appends a new slot and returns its 1-based index;
freed inodes are reused in LIFO (last-freed-first) order — after `unlink` or
`rmdir` frees inode `i`, the next allocation returns `i`, the most recently
freed, while the older freed inodes stay queued behind it. -/
theorem C6_allocation_pops_back_and_reuse_is_lifo (fs fs' : FS) (p i : Nat) (name : String) :
    (fs.queue = [] →
      next_inode fs = (fs.nodes.length + 1, ⟨fs.nodes ++ [none], fs.queue⟩)) ∧
    (fs.queue.getLast? = some i →
      next_inode fs = (i, ⟨fs.nodes, fs.queue.dropLast⟩)) ∧
    ((unlink fs p name = (.ok (), fs') ∨ rmdir fs p name = (.ok (), fs')) →
      parentEntry fs p name = some i →
      (next_inode fs').1 = i ∧ (next_inode fs').2.queue = fs.queue) := by
  refine ⟨?_, ?_, ?_⟩
  · intro h
    unfold next_inode
    rw [h]
    rfl
  · intro h
    unfold next_inode
    rw [h]
  · intro hfree hi
    have key : fs'.queue = fs.queue ++ [i] := by
      rcases hfree with hu | hr
      · obtain ⟨pnode, folder, i0, rest, hl, hf, hrem, hget, hq⟩ :=
          unlink_ok_inv fs fs' p name hu
        rw [parentEntry_folder fs p pnode folder name hl hf, hget] at hi
        cases hi
        exact hq
      · obtain ⟨pnode, folder, i0, rest, hl, hf, hrem, hget, hq⟩ :=
          rmdir_ok_inv fs fs' p name hr
        rw [parentEntry_folder fs p pnode folder name hl hf, hget] at hi
        cases hi
        exact hq
    rw [next_inode_of_queue_concat fs' fs.queue i key]
    exact ⟨rfl, rfl⟩

/-- Witness for C6: on the one-slot state the queue is empty and allocation
appends slot 2; on `fsJ` (queue `[2]`) allocation pops the back; and after
unlinking `b` (inode 3) from `fsJ` the next allocation returns 3 while the
earlier-freed inode 2 stays queued. -/
theorem C6_allocation_pops_back_and_reuse_is_lifo_witness :
    next_inode initFS = (2, ⟨[some ⟨1, .folder []⟩, none], []⟩) ∧
    next_inode fsJ = (2, ⟨fsJ.nodes, []⟩) ∧
    ((next_inode (unlink fsJ 1 "b").2).1 = 3 ∧
      (next_inode (unlink fsJ 1 "b").2).2.queue = fsJ.queue) :=
  ⟨(C6_allocation_pops_back_and_reuse_is_lifo initFS initFS 0 0 "x").1 rfl,
   (C6_allocation_pops_back_and_reuse_is_lifo fsJ fsJ 0 2 "x").2.1 (by decide),
   (C6_allocation_pops_back_and_reuse_is_lifo fsJ (unlink fsJ 1 "b").2 1 3 "b").2.2
     (Or.inl (by decide)) (by decide)⟩

/-- Claim C7 (code: setattr): `setattr` resizes a file's buffer with no clamp,
so resizing the empty file at inode 2 to `MAX_FILE_SIZE + 1` grows its length
to `MAX_FILE_SIZE + 1` — the invariant "file content length ≤ MAX_FILE_SIZE"
is not preserved. -/
theorem C7_setattr_grows_file_past_max_file_size :
    (setattr fsE 2 (MAX_FILE_SIZE + 1)).1 = .ok (MAX_FILE_SIZE + 1) ∧
    fileLen (setattr fsE 2 (MAX_FILE_SIZE + 1)).2 2 = some (MAX_FILE_SIZE + 1) := by
  have hload : load fsE 2 = .ok ⟨2, .file []⟩ := by decide
  have hres : listResize [] (MAX_FILE_SIZE + 1) = List.replicate (MAX_FILE_SIZE + 1) 0 := by
    unfold listResize
    rw [if_neg (by simp)]
    simp
  have hset : setattr fsE 2 (MAX_FILE_SIZE + 1) =
      (.ok (MAX_FILE_SIZE + 1),
        setSlot fsE 2 ⟨2, .file (List.replicate (MAX_FILE_SIZE + 1) 0)⟩) := by
    unfold setattr
    rw [hload]
    dsimp only
    rw [hres, List.length_replicate]
  refine ⟨?_, ?_⟩
  · rw [hset]
  · rw [hset]
    unfold fileLen fileData
    rw [load_setSlot_self fsE 2 _ ⟨2, .file []⟩ hload]
    dsimp only
    simp

/-- Claim C9 (amended): for every successful rename, the entry `newname` in
`newdir` afterwards maps to the inode `i` that `oldname` mapped to in `olddir`
before; no inode is allocated (slot count and free queue are unchanged);
`oldname` is no longer present in `olddir` provided the source and target
entry are not the very same `(dir, name)` pair; and the moved node's file
content is unchanged. -/
theorem C9_rename_moves_entry_preserving_inode
    (fs fs' : FS) (olddir newdir i : Nat) (oldname newname : String)
    (oldnode : Node) (oldF : List (String × Nat))
    (h : rename fs olddir oldname newdir newname = (.ok (), fs'))
    (hload : load fs olddir = .ok oldnode)
    (hF : oldnode.inner = .folder oldF)
    (hwf : (oldF.map Prod.fst).Nodup)
    (hi : entriesGet oldF oldname = some i) :
    parentEntry fs' newdir newname = some i ∧
    fs'.nodes.length = fs.nodes.length ∧
    fs'.queue = fs.queue ∧
    (¬(olddir = newdir ∧ oldname = newname) → parentEntry fs' olddir oldname = none) ∧
    fileData fs' i = fileData fs i := by
  obtain ⟨hb1, hb2⟩ := load_ok_bounds fs olddir oldnode hload
  obtain ⟨oni, oinner⟩ := oldnode
  cases hF
  unfold rename at h
  split at h
  next e heq =>
    rw [hload] at heq
    cases heq
  next onode heq =>
    rw [hload] at heq
    cases heq
    split at h
    next hd =>
      subst hd
      dsimp only at h
      split at h
      next hrem => cases h
      next ino rest hrem =>
        have hino : ino = i := by
          have hfst := entriesRemove_fst oldF oldname
          rw [hrem, hi] at hfst
          exact Option.some.inj hfst
        rw [hino] at h
        injection h with h1 h2
        subst h2
        have hload2 : load (setSlot fs olddir ⟨oni, .folder (entriesInsert rest newname i)⟩)
            olddir = .ok ⟨oni, .folder (entriesInsert rest newname i)⟩ :=
          load_setSlot_self fs olddir _ _ hload
        refine ⟨?_, length_setNth _ _ _, rfl, ?_, ?_⟩
        · rw [parentEntry_folder _ _ _ _ _ hload2 rfl]
          exact entriesGet_insert_self rest newname i
        · intro hne
          have hnn : oldname ≠ newname := fun he => hne ⟨rfl, he⟩
          rw [parentEntry_folder _ _ _ _ _ hload2 rfl]
          rw [entriesGet_insert_ne rest newname oldname i hnn]
          have hnone := entriesGet_remove_self oldF oldname hwf
          rw [hrem] at hnone
          exact hnone
        · by_cases hio : i = olddir
          · subst hio
            rw [fileData_of_folder _ _ _ _ hload2 rfl, fileData_of_folder _ _ _ _ hload rfl]
          · exact fileData_eq_of_load_eq _ _ _ (load_setSlot_ne fs i olddir _ hio hb1)
    next hd =>
      split at h
      next e heqN => cases h
      next nnode heqN =>
        obtain ⟨nni, ninner⟩ := nnode
        cases ninner with
        | file d =>
          dsimp only at h
          cases h
        | folder newF =>
          obtain ⟨hc1, hc2⟩ := load_ok_bounds fs newdir _ heqN
          dsimp only at h
          split at h
          next hrem => cases h
          next ino oldRest hrem =>
            have hino : ino = i := by
              have hfst := entriesRemove_fst oldF oldname
              rw [hrem, hi] at hfst
              exact Option.some.inj hfst
            rw [hino] at h
            injection h with h1 h2
            subst h2
            have hl1 : load (setSlot fs olddir ⟨oni, .folder oldRest⟩) newdir
                = .ok ⟨nni, .folder newF⟩ := by
              rw [load_setSlot_ne fs newdir olddir _ (Ne.symm hd) hb1]
              exact heqN
            have hl2 : load (setSlot (setSlot fs olddir ⟨oni, .folder oldRest⟩) newdir
                  ⟨nni, .folder (entriesInsert newF newname i)⟩) newdir
                = .ok ⟨nni, .folder (entriesInsert newF newname i)⟩ :=
              load_setSlot_self _ newdir _ _ hl1
            have hl3 : load (setSlot (setSlot fs olddir ⟨oni, .folder oldRest⟩) newdir
                  ⟨nni, .folder (entriesInsert newF newname i)⟩) olddir
                = .ok ⟨oni, .folder oldRest⟩ := by
              rw [load_setSlot_ne _ olddir newdir _ hd hc1]
              exact load_setSlot_self fs olddir _ _ hload
            refine ⟨?_, ?_, rfl, ?_, ?_⟩
            · rw [parentEntry_folder _ _ _ _ _ hl2 rfl]
              exact entriesGet_insert_self newF newname i
            · show (setNth (setNth fs.nodes _ _) _ _).length = fs.nodes.length
              rw [length_setNth, length_setNth]
            · intro _
              rw [parentEntry_folder _ _ _ _ _ hl3 rfl]
              have hnone := entriesGet_remove_self oldF oldname hwf
              rw [hrem] at hnone
              exact hnone
            · by_cases hio1 : i = newdir
              · subst hio1
                rw [fileData_of_folder _ _ _ _ hl2 rfl, fileData_of_folder _ _ _ _ heqN rfl]
              · by_cases hio2 : i = olddir
                · subst hio2
                  rw [fileData_of_folder _ _ _ _ hl3 rfl, fileData_of_folder _ _ _ _ hload rfl]
                · refine fileData_eq_of_load_eq _ _ _ ?_
                  rw [load_setSlot_ne _ i newdir _ hio1 hc1,
                      load_setSlot_ne fs i olddir _ hio2 hb1]

/-- Witness for C9 (amended): renaming `a` to `b` inside the root of `fsL`
moves the binding to `b` at the same inode 2, allocates nothing, removes `a`,
and leaves the file bytes untouched. -/
theorem C9_rename_moves_entry_preserving_inode_witness :
    parentEntry (rename fsL 1 "a" 1 "b").2 1 "b" = some 2 ∧
    (rename fsL 1 "a" 1 "b").2.nodes.length = fsL.nodes.length ∧
    (rename fsL 1 "a" 1 "b").2.queue = fsL.queue ∧
    (¬(1 = 1 ∧ "a" = "b") → parentEntry (rename fsL 1 "a" 1 "b").2 1 "a" = none) ∧
    fileData (rename fsL 1 "a" 1 "b").2 2 = fileData fsL 2 :=
  C9_rename_moves_entry_preserving_inode fsL (rename fsL 1 "a" 1 "b").2 1 1 2 "a" "b"
    ⟨1, .folder [("a", 2)]⟩ [("a", 2)] (by decide) (by decide) rfl (by decide) (by decide)

/-- Claim C10: the query operations lookup, getattr, open, readdir and read,
and the no-ops flush, release and releasedir, leave the whole filesystem
state (slot vector, free queue, all entries and file contents) unchanged on
every input, whether they succeed or fail. -/
theorem C10_query_operations_preserve_state (fs : FS) (p ino : Nat) (name : String)
    (size offset : Nat) :
    (lookup fs p name).2 = fs ∧
    (getattr fs ino).2 = fs ∧
    (openNode fs ino).2 = fs ∧
    (readdir fs ino size offset).2 = fs ∧
    (read fs ino size offset).2 = fs ∧
    (flush fs ino).2 = fs ∧
    (release fs ino).2 = fs ∧
    (releasedir fs ino).2 = fs := by
  refine ⟨?_, ?_, ?_, ?_, ?_, rfl, rfl, rfl⟩
  · unfold lookup
    repeat' split
    all_goals rfl
  · unfold getattr
    repeat' split
    all_goals rfl
  · unfold openNode
    repeat' split
    all_goals rfl
  · unfold readdir
    repeat' split
    all_goals rfl
  · unfold read
    repeat' split
    all_goals rfl

end MyFuse
